import Mathlib

/-!
Shallow embedding of the curator ingestion-and-enrichment pipeline
(src/curator/imageLocation.py, image.py, describer.py, scheduler.py).

Filesystem paths are modelled as lists of components (os.path.join appends a
component); the filesystem itself is a finite tree of directories and files.
Database state (the image table) is a list of ImageData records; SQL sessions
are modelled by explicit state passing, with an uncommitted session that raises
leaving the stored list unchanged (rollback on exit without commit).
External libraries (hashlib, exifread data already parsed into a tag mapping,
ollama, rawpy) are embedded as executable functions or oracle parameters.
Python exceptions are modelled with Except.
-/

/-- A filesystem path, as its list of components. -/
abbrev FPath := List String

/-- Python str.lower, character-wise (ASCII case folding). -/
def strLower (s : String) : String := String.mk (s.data.map Char.toLower)

/-- Boolean test that a list begins with the given pattern. -/
def listStarts {α : Type} [DecidableEq α] : List α → List α → Bool
  | [], _ => true
  | _ :: _, [] => false
  | a :: as, b :: bs => if a = b then listStarts as bs else false

/-- Python str.endswith for a single suffix. -/
def strEndsWith (s suffix : String) : Bool :=
  listStarts suffix.data.reverse s.data.reverse

/-- Python str.startswith, used for the location-prefix query on paths. -/
def pathStartsWith (p pre : FPath) : Bool := listStarts pre p

/-! ## EXIF tag model (exifread's parsed representation) -/

/-- A primitive value inside an exifread tag: printable text, an integer, or a
rational (exifread Ratio, carrying a numerator and a denominator). -/
inductive ExifPrim where
  | str (s : String)
  | int (n : Int)
  | ratio (n d : Int)
deriving DecidableEq, Repr

/-- The values attribute of an exifread IfdTag: a plain value (ASCII text) or a
list of values. -/
inductive TagValues where
  | single (v : ExifPrim)
  | list (vs : List ExifPrim)
deriving DecidableEq, Repr

/-- An exifread IfdTag: its values and the numeric wire type of the field
(type 5 is the unsigned-rational encoding). -/
structure IfdTag where
  values : TagValues
  field_type : Nat
deriving DecidableEq, Repr

/-- Python exceptions that can escape the exifValue body: indexing an empty
list, or reading .num from a value that has no such attribute. -/
inductive ExifErr where
  | indexError
  | attributeError
deriving DecidableEq, Repr

/-- The subscript v[0] taken when values is a list (raises on an empty list). -/
def tagFirst : TagValues → Except ExifErr ExifPrim
  | .single v => .ok v
  | .list [] => .error .indexError
  | .list (v :: _) => .ok v

/-- The attribute access v.num (exifread Ratio numerator; raises on other
value shapes). -/
def ratioNum : ExifPrim → Except ExifErr ExifPrim
  | .ratio n _ => .ok (.int n)
  | _ => .error .attributeError

/-- image.exifValue: extracts the value from an EXIF tag.  Looks the tag up in
the mapping; takes the first element when the values are a list; for wire type
5 (rational) returns v.num; an absent tag yields the supplied default. -/
def exifValue (vals : List (String × IfdTag)) (tag : String)
    (dflt : Option ExifPrim) : Except ExifErr (Option ExifPrim) :=
  match vals.lookup tag with
  | some t =>
    match tagFirst t.values with
    | .error e => .error e
    | .ok v =>
      if t.field_type == 5 then
        match ratioNum v with
        | .error e => .error e
        | .ok n => .ok (some n)
      else .ok (some v)
  | none => .ok dflt

/-! ## Filesystem model -/

/-- Contents of one file on disk: whether open() succeeds on it, its raw
bytes, and the EXIF tag mapping exifread.process_file parses out of it. -/
structure FileData where
  readable : Bool := true
  content : List Nat := []
  exif : List (String × IfdTag) := []
deriving DecidableEq, Repr

/-- A filesystem tree: a regular file, or a directory with named children
(os.listdir returns the child names in list order). -/
inductive FSNode where
  | file (d : FileData)
  | dir (children : List (String × FSNode))
deriving Repr

def FSNode.isDir : FSNode → Bool
  | .dir _ => true
  | .file _ => false

def FSNode.isFile : FSNode → Bool
  | .dir _ => false
  | .file _ => true

/-- Resolve a path against the tree rooted at node; none models a path for
which os.path.exists is false. -/
def resolve : FPath → FSNode → Option FSNode
  | [], node => some node
  | _ :: _, .file _ => none
  | name :: rest, .dir children =>
    match children.lookup name with
    | some child => resolve rest child
    | none => none

/-- Strong induction over filesystem trees: to prove a property of every node
it suffices to prove it for files and for directories assuming it for every
child. -/
theorem FSNode.strongInd (P : FSNode → Prop)
    (hf : ∀ d, P (.file d))
    (hd : ∀ children, (∀ c ∈ children, P c.2) → P (.dir children)) :
    ∀ n, P n
  | .file d => hf d
  | .dir children => hd children (fun c hc => FSNode.strongInd P hf hd c.2)
termination_by n => sizeOf n
decreasing_by
  have hlt := List.sizeOf_lt_of_mem hc
  cases c
  simp at hlt ⊢
  omega

/-! ## MD5 (hashlib.md5(...).hexdigest()) -/

/-- 2 to the 32, the word modulus of MD5 arithmetic. -/
def w32 : Nat := 4294967296

def add32 (a b : Nat) : Nat := (a + b) % w32

/-- Left-rotation of a 32-bit word. -/
def rotl32 (x s : Nat) : Nat :=
  ((x % w32) * 2 ^ s + (x % w32) / 2 ^ (32 - s)) % w32

/-- Bitwise complement of a 32-bit word. -/
def not32 (x : Nat) : Nat := (w32 - 1) - (x % w32)

/-- The 64 MD5 sine-derived constants (RFC 1321). -/
def md5K : List Nat :=
  [0xd76aa478, 0xe8c7b756, 0x242070db, 0xc1bdceee,
   0xf57c0faf, 0x4787c62a, 0xa8304613, 0xfd469501,
   0x698098d8, 0x8b44f7af, 0xffff5bb1, 0x895cd7be,
   0x6b901122, 0xfd987193, 0xa679438e, 0x49b40821,
   0xf61e2562, 0xc040b340, 0x265e5a51, 0xe9b6c7aa,
   0xd62f105d, 0x02441453, 0xd8a1e681, 0xe7d3fbc8,
   0x21e1cde6, 0xc33707d6, 0xf4d50d87, 0x455a14ed,
   0xa9e3e905, 0xfcefa3f8, 0x676f02d9, 0x8d2a4c8a,
   0xfffa3942, 0x8771f681, 0x6d9d6122, 0xfde5380c,
   0xa4beea44, 0x4bdecfa9, 0xf6bb4b60, 0xbebfbc70,
   0x289b7ec6, 0xeaa127fa, 0xd4ef3085, 0x04881d05,
   0xd9d4d039, 0xe6db99e5, 0x1fa27cf8, 0xc4ac5665,
   0xf4292244, 0x432aff97, 0xab9423a7, 0xfc93a039,
   0x655b59c3, 0x8f0ccc92, 0xffeff47d, 0x85845dd1,
   0x6fa87e4f, 0xfe2ce6e0, 0xa3014314, 0x4e0811a1,
   0xf7537e82, 0xbd3af235, 0x2ad7d2bb, 0xeb86d391]

/-- The per-round left-rotation amounts. -/
def md5S : List Nat :=
  [7, 12, 17, 22, 7, 12, 17, 22, 7, 12, 17, 22, 7, 12, 17, 22,
   5, 9, 14, 20, 5, 9, 14, 20, 5, 9, 14, 20, 5, 9, 14, 20,
   4, 11, 16, 23, 4, 11, 16, 23, 4, 11, 16, 23, 4, 11, 16, 23,
   6, 10, 15, 21, 6, 10, 15, 21, 6, 10, 15, 21, 6, 10, 15, 21]

/-- The nonlinear mixing function for operation i. -/
def md5F (i b c d : Nat) : Nat :=
  if i < 16 then Nat.lor (Nat.land b c) (Nat.land (not32 b) d)
  else if i < 32 then Nat.lor (Nat.land d b) (Nat.land (not32 d) c)
  else if i < 48 then Nat.xor (Nat.xor b c) d
  else Nat.xor c (Nat.lor b (not32 d))

/-- The message-word index used by operation i. -/
def md5G (i : Nat) : Nat :=
  if i < 16 then i
  else if i < 32 then (5 * i + 1) % 16
  else if i < 48 then (3 * i + 5) % 16
  else (7 * i) % 16

/-- One of the 64 MD5 operations on the running state. -/
def md5Step (M : List Nat) (st : Nat × Nat × Nat × Nat) (i : Nat) :
    Nat × Nat × Nat × Nat :=
  match st with
  | (a, b, c, d) =>
    let f := add32 (add32 (md5F i b c d) a)
                   (add32 (md5K.getD i 0) (M.getD (md5G i) 0))
    (d, add32 b (rotl32 f (md5S.getD i 0)), b, c)

/-- Decode a 64-byte block into 16 little-endian 32-bit words. -/
def md5Words : Nat → List Nat → List Nat
  | 0, _ => []
  | k + 1, bs =>
    (bs.getD 0 0 % 256 + (bs.getD 1 0 % 256) * 256 +
     (bs.getD 2 0 % 256) * 65536 + (bs.getD 3 0 % 256) * 16777216)
      :: md5Words k (bs.drop 4)

/-- One MD5 compression of a 64-byte block into the chaining state. -/
def md5Compress (st : Nat × Nat × Nat × Nat) (block : List Nat) :
    Nat × Nat × Nat × Nat :=
  let M := md5Words 16 block
  match (List.range 64).foldl (md5Step M) st, st with
  | (a, b, c, d), (a0, b0, c0, d0) =>
    (add32 a0 a, add32 b0 b, add32 c0 c, add32 d0 d)

/-- MD5 padding: a 0x80 byte, zeros to 56 mod 64, then the bit length as
eight little-endian bytes. -/
def md5Pad (msg : List Nat) : List Nat :=
  let padLen := (119 - msg.length % 64) % 64
  let bitLen := (8 * msg.length) % 2 ^ 64
  msg ++ [128] ++ List.replicate padLen 0 ++
    (List.range 8).map (fun i => bitLen / 256 ^ i % 256)

/-- Split a byte list into 64-byte chunks (fuel-driven so that it computes by
kernel reduction). -/
def chunks64Go : Nat → List Nat → List (List Nat)
  | 0, _ => []
  | fuel + 1, l =>
    match l with
    | [] => []
    | _ :: _ => l.take 64 :: chunks64Go fuel (l.drop 64)

def chunks64 (l : List Nat) : List (List Nat) := chunks64Go l.length l

/-- The four bytes of a 32-bit word, little-endian. -/
def toLE4 (x : Nat) : List Nat :=
  [x % 256, x / 256 % 256, x / 65536 % 256, x / 16777216 % 256]

/-- One lowercase hexadecimal digit. -/
def hexDigit (n : Nat) : Char :=
  if n < 10 then Char.ofNat (48 + n) else Char.ofNat (87 + n)

/-- Two lowercase hex characters of one byte, high nibble first. -/
def hexByte (b : Nat) : List Char := [hexDigit (b / 16 % 16), hexDigit (b % 16)]

/-- The 16 digest bytes serialized from the final state, little-endian per
word, a then b then c then d. -/
def md5DigestBytes (st : Nat × Nat × Nat × Nat) : List Nat :=
  match st with
  | (a, b, c, d) => toLE4 a ++ toLE4 b ++ toLE4 c ++ toLE4 d

/-- hashlib.md5(msg).hexdigest(): the 32-character lowercase hexadecimal MD5
digest of a byte string. -/
def md5_hexdigest (msg : List Nat) : String :=
  let st := (chunks64 (md5Pad msg)).foldl md5Compress
    (0x67452301, 0xefcdab89, 0x98badcfe, 0x10325476)
  String.mk (((md5DigestBytes st).map hexByte).flatten)

/-! ## Catalog data model (image.ImageData) -/

/-- The declared maximum length of the ImageData.hash column
(Field(index=True, max_length=31) in image.py). -/
def hashMaxLength : Nat := 31

/-- image.ImageData: one row of the image table.  Metadata attributes keep the
value shape exifValue produced (pydantic coercion to column types is not
modelled); description is set later by the describer. -/
structure ImageData where
  id : Option Nat := none
  location : FPath
  hash : String
  format : String
  description : Option String := none
  author : Option ExifPrim := none
  camera : Option ExifPrim := none
  orientation : Option ExifPrim := some (.int 1)
  x_resolution : Option ExifPrim := none
  y_resolution : Option ExifPrim := none
  date_taken : Option ExifPrim := none
  exposure_time : Option ExifPrim := none
  f_number : Option ExifPrim := none
  iso : Option ExifPrim := none
  focal_length : Option ExifPrim := none
deriving DecidableEq, Repr

/-- The reversed extension characters os.path.splitext assigns, computed on
the reversed character list of a file name: the characters after the last dot,
unless every character before that dot is itself a dot (leading-dot names have
no extension). -/
def extRev (rev : List Char) : List Char :=
  let after := rev.takeWhile (fun c => c != '.')
  match rev.dropWhile (fun c => c != '.') with
  | [] => []
  | _ :: before => if before.all (fun c => c == '.') then [] else after

/-- os.path.splitext(name)[1][1:]: the extension of a file name without its
dot, preserving case. -/
def fileFormat (name : String) : String := String.mk (extRev name.data.reverse).reverse

/-- The final component of a path (the file name os.path.splitext examines,
since the extension of a joined path lies in its last component). -/
def pathBase (p : FPath) : String := p.getLastD ""

/-- A Python exception escaping create_image: open() failed on the path, or
the EXIF tag data had a shape one of the exifValue calls raises on. -/
inductive ExtractError where
  | unreadable (p : FPath)
  | exifErr (e : ExifErr)
deriving DecidableEq, Repr

/-- The ten metadata attributes create_image draws out of the EXIF tags. -/
structure ExifMeta where
  author : Option ExifPrim
  camera : Option ExifPrim
  orientation : Option ExifPrim
  x_resolution : Option ExifPrim
  y_resolution : Option ExifPrim
  date_taken : Option ExifPrim
  exposure_time : Option ExifPrim
  f_number : Option ExifPrim
  iso : Option ExifPrim
  focal_length : Option ExifPrim
deriving DecidableEq, Repr

/-- The ten exifValue calls of create_image, in source order (the first one
that raises aborts create_image). -/
def extractMeta (ex : List (String × IfdTag)) : Except ExifErr ExifMeta := do
  let author ← exifValue ex "Image Artist" none
  let camera ← exifValue ex "Image Model" none
  let orientation ← exifValue ex "Image Orientation" (some (.int 1))
  let xRes ← exifValue ex "Image XResolution" none
  let yRes ← exifValue ex "Image YResolution" none
  let dateTaken ← exifValue ex "EXIF DateTimeOriginal" none
  let expTime ← exifValue ex "EXIF ExposureTime" none
  let fNumber ← exifValue ex "EXIF FNumber" none
  let iso ← exifValue ex "EXIF ISOSpeedRatings" none
  let focal ← exifValue ex "EXIF FocalLength" none
  pure { author := author, camera := camera, orientation := orientation,
         x_resolution := xRes, y_resolution := yRes, date_taken := dateTaken,
         exposure_time := expTime, f_number := fNumber, iso := iso,
         focal_length := focal }

/-- image.create_image: reads the file bytes, fingerprints them with MD5,
derives the format tag from the extension, and extracts the named EXIF
attributes (orientation defaulting to 1). -/
def create_image (fs : FSNode) (image_file : FPath) : Except ExtractError ImageData :=
  match resolve image_file fs with
  | some (.file d) =>
    if d.readable then
      match extractMeta d.exif with
      | .error e => .error (.exifErr e)
      | .ok m =>
        .ok { location := image_file,
              hash := md5_hexdigest d.content,
              format := fileFormat (pathBase image_file),
              author := m.author,
              camera := m.camera,
              orientation := m.orientation,
              x_resolution := m.x_resolution,
              y_resolution := m.y_resolution,
              date_taken := m.date_taken,
              exposure_time := m.exposure_time,
              f_number := m.f_number,
              iso := m.iso,
              focal_length := m.focal_length }
    else .error (.unreadable image_file)
  | _ => .error (.unreadable image_file)

/-! ## Directory scanner (imageLocation.image_files) -/

/-- image.IMAGE_FORMATS: the recognized image filename suffixes. -/
def IMAGE_FORMATS : List String := [".jpg", ".jpeg", ".nef"]

/-- The listdir filter f.lower().endswith(IMAGE_FORMATS). -/
def isImageName (f : String) : Bool :=
  IMAGE_FORMATS.any (fun ext => strEndsWith (strLower f) ext)

mutual

/-- The recursive body of imageLocation.image_files at one directory: list the
children, keep the names passing the format filter (note os.listdir also
reports subdirectory names, which the filter does not distinguish), drop paths
in the exclusion set, then append the scan of every child that is a
directory. -/
def scanDir (dir : FPath) (node : FSNode) (existing : List FPath) : List FPath :=
  match node with
  | .file _ => []
  | .dir children =>
    (((children.map Prod.fst).filter isImageName).map (fun f => dir ++ [f])).filter
        (fun img => !(existing.contains img))
      ++ scanChildren dir children existing

/-- The for-loop over sub_directories: scan each child that os.path.isdir
accepts, in listdir order. -/
def scanChildren (dir : FPath) (cs : List (String × FSNode)) (existing : List FPath) :
    List FPath :=
  match cs with
  | [] => []
  | (name, child) :: rest =>
    (if child.isDir then scanDir (dir ++ [name]) child existing else [])
      ++ scanChildren dir rest existing

end

/-- An exception raised by the scan entry point: the ValueError for a
nonexistent root, or the OSError os.listdir raises on a non-directory. -/
inductive ScanError where
  | valueError (dir : FPath)
  | notADirectory (dir : FPath)
deriving DecidableEq, Repr

/-- The query select(ImageData.location).where(location.startswith(dir)) used
when no exclusion set is supplied. -/
def dbExisting (db : List ImageData) (dir : FPath) : List FPath :=
  (db.map ImageData.location).filter (fun loc => pathStartsWith loc dir)

/-- imageLocation.image_files(dir, existing): raises ValueError when the root
does not exist; when existing is None, loads the exclusion set from the
catalog with the location-prefix query; then performs the recursive scan. -/
def image_files (fs : FSNode) (dir : FPath) (existing : Option (List FPath))
    (db : List ImageData) : Except ScanError (List FPath) :=
  match resolve dir fs with
  | none => .error (.valueError dir)
  | some (.file _) => .error (.notADirectory dir)
  | some (.dir children) =>
    let ex := match existing with
      | some e => e
      | none => dbExisting db dir
    .ok (scanDir dir (.dir children) ex)

/-! ## Ingestion (imageLocation.load_from_directory, load_images) -/

/-- imageLocation.ImageLocation: a registered import location. -/
structure ImageLocation where
  id : Option Nat := none
  directory : FPath
deriving DecidableEq, Repr

/-- An exception escaping load_from_directory: the scan raised, or
create_image raised on one of the candidate files. -/
inductive LoadError where
  | scan (e : ScanError)
  | extract (e : ExtractError)
deriving DecidableEq, Repr

/-- The session loop of load_from_directory: for each candidate file create
the ImageData (an exception here aborts the session, rolling back every
pending add), skip it when a row with that location already exists in the
session view, otherwise add it and count it; the commit at the end publishes
the accumulated state. -/
def loadSession (fs : FSNode) (db : List ImageData) :
    List FPath → Nat → Except LoadError (List ImageData × Nat)
  | [], added => .ok (db, added)
  | f :: rest, added =>
    match create_image fs f with
    | .error e => .error (.extract e)
    | .ok image =>
      if db.any (fun i => i.location == f) then loadSession fs db rest added
      else loadSession fs (db ++ [image]) rest (added + 1)

/-- imageLocation.load_from_directory: scans the location's directory with the
exclusion set drawn from the catalog, then runs the session loop.  An error
models the Python exception propagating to the caller with the table
unchanged. -/
def load_from_directory (fs : FSNode) (db : List ImageData) (location : ImageLocation) :
    Except LoadError (List ImageData × Nat) :=
  match image_files fs location.directory none db with
  | .error e => .error (.scan e)
  | .ok files => loadSession fs db files 0

/-- imageLocation.load_images: ingest every registered location in turn.  An
exception propagates, but the locations already processed keep their committed
rows, so the error carries the table state at the failure point. -/
def load_images (fs : FSNode) (locations : List ImageLocation) (db : List ImageData) :
    Except (LoadError × List ImageData) (List ImageData) :=
  match locations with
  | [] => .ok db
  | loc :: rest =>
    match load_from_directory fs db loc with
    | .error e => .error (e, db)
    | .ok (db1, _) => load_images fs rest db1

/-! ## Displayable bytes (image.ImageData.read_image / process_nef) -/

/-- A Python exception raised while obtaining an entry's bytes: open() or
rawpy.imread failed on the path, or rawpy could not decode the payload. -/
inductive ReadError where
  | unreadable (p : FPath)
  | rawDecode (msg : String)
deriving DecidableEq, Repr

/-- ImageData.process_nef: rawpy reads the file at the entry's location,
postprocesses with camera white balance and the result is re-encoded as JPEG.
The rawpy and PIL stages are external libraries, supplied as the conversion
oracle nefConvert on the file bytes. -/
def process_nef (nefConvert : List Nat → Except String (List Nat)) (fs : FSNode)
    (img : ImageData) : Except ReadError (List Nat) :=
  match resolve img.location fs with
  | some (.file d) =>
    if d.readable then
      match nefConvert d.content with
      | .ok bytes => .ok bytes
      | .error m => .error (.rawDecode m)
    else .error (.unreadable img.location)
  | _ => .error (.unreadable img.location)

/-- ImageData.read_image: entries whose lowercased format is nef route through
process_nef; every other entry returns the file bytes verbatim. -/
def read_image (nefConvert : List Nat → Except String (List Nat)) (fs : FSNode)
    (img : ImageData) : Except ReadError (List Nat) :=
  if strLower img.format == "nef" then process_nef nefConvert fs img
  else
    match resolve img.location fs with
    | some (.file d) =>
      if d.readable then .ok d.content else .error (.unreadable img.location)
    | _ => .error (.unreadable img.location)

/-! ## Description engine (describer.py) -/

/-- config.Settings: the configuration values the core consumes. -/
structure Settings where
  description_model : String := "gemma3:4b"
  use_ollama : Bool := true
  device : String := "cuda"
  scheduler_interval : Nat := 3600

/-- describer.describe_image_ollama: calls ollama.generate with the fixed
prompt and the configured model; any exception the call raises is caught and
converted into a literal error string.  The remote service is the oracle gen,
taking the model name and the image bytes. -/
def describe_image_ollama (s : Settings) (gen : String → List Nat → Except String String)
    (img_data : List Nat) : String :=
  match gen s.description_model img_data with
  | .ok resp => resp
  | .error e => "Error describing image: " ++ e

/-- A Python exception escaping describe_image: read_image raised while
loading the bytes, or the kaggle (local) backend raised (that path has no
handler). -/
inductive DescribeError where
  | read (e : ReadError)
  | backend (msg : String)
deriving DecidableEq, Repr

/-- describer.describe_image: reads the displayable bytes, then dispatches on
settings.use_ollama; the local backend is the oracle kag and its exceptions
are not caught. -/
def describe_image (s : Settings) (gen : String → List Nat → Except String String)
    (kag : List Nat → Except String String)
    (nefConvert : List Nat → Except String (List Nat)) (fs : FSNode)
    (img : ImageData) : Except DescribeError String :=
  match read_image nefConvert fs img with
  | .error e => .error (.read e)
  | .ok img_data =>
    if s.use_ollama then .ok (describe_image_ollama s gen img_data)
    else
      match kag img_data with
      | .ok d => .ok d
      | .error m => .error (.backend m)

/-- image.set_image: adds or updates the row for this image (its location is
the unique key) and upserts the entry into the search index; the index write
does not affect the relational state modelled here. -/
def set_image (image : ImageData) (db : List ImageData) : List ImageData :=
  db.map (fun i => if i.location == image.location then image else i)

/-- describer.run_describer: selects the entries whose description is null,
then describes each in turn, storing the result on the entry with set_image in
its own session.  An exception propagates, and the entries already described
keep their committed rows, so the error carries the table at the failure
point. -/
def run_describer (s : Settings) (gen : String → List Nat → Except String String)
    (kag : List Nat → Except String String)
    (nefConvert : List Nat → Except String (List Nat)) (fs : FSNode)
    (db : List ImageData) : Except (DescribeError × List ImageData) (List ImageData) :=
  let images := db.filter (fun i => i.description.isNone)
  images.foldlM
    (fun acc img =>
      match describe_image s gen kag nefConvert fs img with
      | .error e => .error (e, acc)
      | .ok description => .ok (set_image { img with description := some description } acc))
    db

/-! ## Periodic scheduler (scheduler.py) -/

/-- The state the scheduled task reads and writes: the filesystem, the
registered locations, the image table, the configuration, and the three
external oracles. -/
structure World where
  fs : FSNode
  locations : List ImageLocation
  db : List ImageData
  settings : Settings
  ollamaGen : String → List Nat → Except String String
  kaggleGen : List Nat → Except String String
  nefConvert : List Nat → Except String (List Nat)

/-- A Python exception escaping one cycle of scheduler.task. -/
inductive CycleError where
  | load (e : LoadError)
  | describe (e : DescribeError)
deriving DecidableEq, Repr

/-- scheduler.task: one scheduled cycle runs load_images then run_describer,
and only after both return does it re-enter itself into the scheduler queue.
The body has no exception handler: a raised exception propagates, carrying the
storage state at the failure point, and the re-entry never happens. -/
def task (w : World) : Except (CycleError × World) World :=
  match load_images w.fs w.locations w.db with
  | .error (e, db1) => .error (.load e, { w with db := db1 })
  | .ok db1 =>
    match run_describer w.settings w.ollamaGen w.kaggleGen w.nefConvert w.fs db1 with
    | .error (e, db2) => .error (.describe e, { w with db := db2 })
    | .ok db2 => .ok { w with db := db2 }

/-- The observable fate of the scheduler after a bounded number of cycles:
still alive in its enter/run loop, or terminated because a cycle raised. -/
inductive SchedOutcome where
  | running (cyclesCompleted : Nat) (w : World)
  | crashed (cyclesCompleted : Nat) (w : World) (e : CycleError)

/-- The sched.scheduler.run loop driving task: each completed cycle re-enters
the next one; an exception raised by an action propagates out of run, so no
further event is ever executed.  Fuel bounds how many cycles are observed. -/
def sched_run : Nat → Nat → World → SchedOutcome
  | 0, done, w => .running done w
  | fuel + 1, done, w =>
    match task w with
    | .ok w1 => sched_run fuel (done + 1) w1
    | .error (e, w1) => .crashed done w1 e

/-- scheduler.start_scheduler: enters the first task immediately and runs the
event loop. -/
def start_scheduler (fuel : Nat) (w : World) : SchedOutcome := sched_run fuel 0 w

/-! ## Basic lemmas -/

theorem listStarts_refl_append {α : Type} [DecidableEq α] (pre t : List α) :
    listStarts pre (pre ++ t) = true := by
  induction pre with
  | nil => rfl
  | cons a as ih => simpa [listStarts] using ih

theorem pathStartsWith_append (pre t : FPath) : pathStartsWith (pre ++ t) pre = true :=
  listStarts_refl_append pre t

theorem strEndsWith_append (s t : String) : strEndsWith (s ++ t) t = true := by
  unfold strEndsWith
  rw [String.data_append, List.reverse_append]
  exact listStarts_refl_append _ _

theorem strLower_append (s t : String) : strLower (s ++ t) = strLower s ++ strLower t := by
  unfold strLower
  rw [String.data_append, List.map_append]
  rfl

theorem md5DigestBytes_length (st : Nat × Nat × Nat × Nat) :
    (md5DigestBytes st).length = 16 := by
  obtain ⟨a, b, c, d⟩ := st
  rfl

theorem flatten_hexBytes_length (bs : List Nat) :
    ((bs.map hexByte).flatten).length = 2 * bs.length := by
  induction bs with
  | nil => rfl
  | cons b rest ih =>
    simp only [List.map_cons, List.flatten_cons, List.length_append, ih, hexByte,
      List.length_cons, List.length_nil]
    omega

/-- The hexadecimal MD5 digest of any byte string has exactly 32 characters. -/
theorem md5_hexdigest_length (msg : List Nat) : (md5_hexdigest msg).length = 32 := by
  unfold md5_hexdigest
  show (((md5DigestBytes _).map hexByte).flatten).length = 32
  rw [flatten_hexBytes_length, md5DigestBytes_length]

theorem filter_nil_contains (l : List FPath) :
    l.filter (fun p => !((([] : List FPath)).contains p)) = l := by
  simp

theorem scanDir_filter_law (node : FSNode) :
    ∀ dir ex, scanDir dir node ex = (scanDir dir node []).filter (fun p => !(ex.contains p)) := by
  induction node using FSNode.strongInd with
  | hf d => intro dir ex; simp [scanDir]
  | hd children ih =>
    intro dir ex
    have hch : ∀ cs, (∀ c ∈ cs, ∀ dir2 ex2, scanDir dir2 c.2 ex2 =
        (scanDir dir2 c.2 []).filter (fun p => !(ex2.contains p))) →
        scanChildren dir cs ex = (scanChildren dir cs []).filter (fun p => !(ex.contains p)) := by
      intro cs
      induction cs with
      | nil => intro _; simp [scanChildren]
      | cons c rest ihc =>
        intro hmem
        obtain ⟨name, child⟩ := c
        simp only [scanChildren, List.filter_append]
        rw [ihc (fun c hc => hmem c (List.mem_cons_of_mem _ hc))]
        congr 1
        by_cases hd : child.isDir
        · simp only [hd, if_true]
          exact hmem (name, child) (List.mem_cons_self _ _) _ _
        · simp [hd]
    simp only [scanDir, List.filter_append, filter_nil_contains]
    rw [hch children ih]

theorem scanDir_mem_shape (node : FSNode) :
    ∀ dir ex p, p ∈ scanDir dir node ex →
      ∃ mid n, p = dir ++ mid ++ [n] ∧ isImageName n = true := by
  induction node using FSNode.strongInd with
  | hf d => intro dir ex p hp; simp [scanDir] at hp
  | hd children ih =>
    intro dir ex p hp
    simp only [scanDir] at hp
    rcases List.mem_append.mp hp with hlev | hrec
    · have hmem := List.mem_filter.mp hlev
      obtain ⟨f, hf, rfl⟩ := List.mem_map.mp hmem.1
      have := List.mem_filter.mp hf
      exact ⟨[], f, by simp, this.2⟩
    · clear hp
      have hch : ∀ cs, (∀ c ∈ cs, c ∈ children) → p ∈ scanChildren dir cs ex →
          ∃ mid n, p = dir ++ mid ++ [n] ∧ isImageName n = true := by
        intro cs
        induction cs with
        | nil => intro _ hp2; simp [scanChildren] at hp2
        | cons c rest ihc =>
          intro hsub hp2
          obtain ⟨name, child⟩ := c
          simp only [scanChildren] at hp2
          rcases List.mem_append.mp hp2 with hhd | htl
          · by_cases hdir : child.isDir
            · rw [if_pos hdir] at hhd
              obtain ⟨mid, n, rfl, hn⟩ :=
                ih (name, child) (hsub _ (List.mem_cons_self _ _)) (dir ++ [name]) ex _ hhd
              exact ⟨name :: mid, n, by simp, hn⟩
            · rw [if_neg hdir] at hhd
              simp at hhd
          · exact ihc (fun c hc => hsub c (List.mem_cons_of_mem _ hc)) htl
      exact hch children (fun c hc => hc) hrec

/-- Unpacking a successful create_image: the file resolved, was readable, its
metadata extracted, and the resulting record is exactly the constructed one. -/
theorem create_image_ok {fs : FSNode} {p : FPath} {img : ImageData}
    (h : create_image fs p = .ok img) :
    ∃ d m, resolve p fs = some (.file d) ∧ d.readable = true ∧
      extractMeta d.exif = .ok m ∧
      img = { location := p, hash := md5_hexdigest d.content,
              format := fileFormat (pathBase p),
              author := m.author, camera := m.camera, orientation := m.orientation,
              x_resolution := m.x_resolution, y_resolution := m.y_resolution,
              date_taken := m.date_taken, exposure_time := m.exposure_time,
              f_number := m.f_number, iso := m.iso, focal_length := m.focal_length } := by
  unfold create_image at h
  split at h
  next d heq =>
    split at h
    next hr =>
      split at h
      next e hm => cases h
      next m hm =>
        refine ⟨d, m, heq, hr, hm, ?_⟩
        exact (Except.ok.inj h).symm
    next hr => cases h
  next => cases h

theorem create_image_loc {fs : FSNode} {p : FPath} {img : ImageData}
    (h : create_image fs p = .ok img) : img.location = p := by
  obtain ⟨d, m, -, -, -, rfl⟩ := create_image_ok h
  rfl

/-- The session loop of load_from_directory, on success: it only appends rows,
every processed candidate ends up present as a location, and location
distinctness is preserved. -/
theorem loadSession_ok_spec (fs : FSNode) :
    ∀ (files : List FPath) (db : List ImageData) (added : Nat)
      (db2 : List ImageData) (n : Nat),
      loadSession fs db files added = .ok (db2, n) →
      (∃ ext, db2 = db ++ ext) ∧
      (∀ f ∈ files, f ∈ db2.map ImageData.location) ∧
      ((db.map ImageData.location).Nodup → (db2.map ImageData.location).Nodup) := by
  intro files
  induction files with
  | nil =>
    intro db added db2 n h
    simp only [loadSession, Except.ok.injEq, Prod.mk.injEq] at h
    obtain ⟨h1, -⟩ := h
    subst h1
    exact ⟨⟨[], by simp⟩, by simp, fun hn => hn⟩
  | cons f rest ih =>
    intro db added db2 n h
    simp only [loadSession] at h
    split at h
    next e heq => cases h
    next image heq =>
      split at h
      next hknown =>
        obtain ⟨⟨ext, hext⟩, hcov, hnd⟩ := ih db added db2 n h
        refine ⟨⟨ext, hext⟩, ?_, hnd⟩
        intro g hg
        rcases List.mem_cons.mp hg with rfl | hg2
        · obtain ⟨i, hi, hieq⟩ := List.any_eq_true.mp hknown
          have : i.location = g := by simpa using hieq
          subst hext
          simp only [List.map_append, List.mem_append]
          exact Or.inl (this ▸ List.mem_map_of_mem ImageData.location hi)
        · exact hcov g hg2
      next hknown =>
        obtain ⟨⟨ext, hext⟩, hcov, hnd⟩ := ih (db ++ [image]) (added + 1) db2 n h
        have himgloc : image.location = f := create_image_loc heq
        refine ⟨⟨[image] ++ ext, by rw [hext, List.append_assoc]⟩, ?_, ?_⟩
        · intro g hg
          rcases List.mem_cons.mp hg with rfl | hg2
          · subst hext
            simp only [List.map_append, List.mem_append, List.map_cons]
            exact Or.inl (Or.inr (by simp [himgloc]))
          · exact hcov g hg2
        · intro hnodup
          apply hnd
          have hnotin : f ∉ db.map ImageData.location := by
            intro hmem
            obtain ⟨i, hi, hieq⟩ := List.mem_map.mp hmem
            have : db.any (fun i => i.location == f) = true :=
              List.any_eq_true.mpr ⟨i, hi, by simp [hieq]⟩
            simp [this] at hknown
          simp only [List.map_append, List.map_cons, List.map_nil]
          rw [List.nodup_append]
          refine ⟨hnodup, List.nodup_singleton _, ?_⟩
          intro x hx hx2
          simp only [List.mem_singleton] at hx2
          subst hx2
          rw [himgloc] at hx
          exact hnotin hx

theorem load_parts {fs : FSNode} {db : List ImageData} {loc : ImageLocation}
    {db2 : List ImageData} {n : Nat}
    (h : load_from_directory fs db loc = .ok (db2, n)) :
    ∃ files, image_files fs loc.directory none db = .ok files ∧
      loadSession fs db files 0 = .ok (db2, n) := by
  unfold load_from_directory at h
  split at h
  next e heq => cases h
  next files heq => exact ⟨files, heq, h⟩

theorem image_files_ok_parts {fs : FSNode} {dir : FPath} {existing : Option (List FPath)}
    {db : List ImageData} {files : List FPath}
    (h : image_files fs dir existing db = .ok files) :
    ∃ children, resolve dir fs = some (.dir children) ∧
      files = scanDir dir (.dir children)
        (existing.getD (dbExisting db dir)) := by
  cases existing with
  | none =>
    unfold image_files at h
    split at h
    next => cases h
    next => cases h
    next children heq => exact ⟨children, heq, (Except.ok.inj h).symm⟩
  | some e =>
    unfold image_files at h
    split at h
    next => cases h
    next => cases h
    next children heq => exact ⟨children, heq, (Except.ok.inj h).symm⟩

/-- C1: Ingestion is idempotent: for every registered location, if
load_from_directory succeeds and is then run again with no change to the
filesystem, the second run adds zero new catalog entries (the table is
returned unchanged with an added count of 0), and the location values of the
catalog entries remain pairwise distinct. -/
theorem C1_ingest_idempotent (fs : FSNode) (db db1 : List ImageData)
    (loc : ImageLocation) (n1 : Nat)
    (h1 : load_from_directory fs db loc = .ok (db1, n1))
    (hnd : (db.map ImageData.location).Nodup) :
    load_from_directory fs db1 loc = .ok (db1, 0) ∧
      (db1.map ImageData.location).Nodup := by
  obtain ⟨files, hscan, hsess⟩ := load_parts h1
  obtain ⟨children, hres, hfiles⟩ := image_files_ok_parts hscan
  obtain ⟨⟨ext, hext⟩, hcov, hndp⟩ := loadSession_ok_spec fs files db 0 db1 n1 hsess
  refine ⟨?_, hndp hnd⟩
  have hsub : ∀ p, p ∈ db.map ImageData.location → p ∈ db1.map ImageData.location := by
    intro p hp
    subst hext
    simp only [List.map_append, List.mem_append]
    exact Or.inl hp
  have hcand : ∀ p ∈ scanDir loc.directory (.dir children) [],
      p ∈ db1.map ImageData.location ∧ pathStartsWith p loc.directory = true := by
    intro p hp
    constructor
    · by_cases hex : (dbExisting db loc.directory).contains p
      · have hpool : p ∈ dbExisting db loc.directory := by simpa using hex
        exact hsub p (List.mem_of_mem_filter hpool)
      · have hpf : p ∈ files := by
          rw [hfiles, scanDir_filter_law]
          exact List.mem_filter.mpr ⟨hp, by simp_all⟩
        exact hcov p hpf
    · obtain ⟨mid, nn, rfl, -⟩ := scanDir_mem_shape (.dir children) loc.directory [] p hp
      rw [List.append_assoc]
      exact pathStartsWith_append _ _
  have hscan2 : scanDir loc.directory (.dir children) (dbExisting db1 loc.directory) = [] := by
    rw [scanDir_filter_law]
    apply List.filter_eq_nil_iff.mpr
    intro p hp
    obtain ⟨hmem, hpre⟩ := hcand p hp
    have hdbe : p ∈ dbExisting db1 loc.directory := List.mem_filter.mpr ⟨hmem, hpre⟩
    simp [hdbe]
  have h2 : image_files fs loc.directory none db1 = .ok [] := by
    simp [image_files, hres, hscan2]
  unfold load_from_directory
  rw [h2]
  show loadSession fs db1 [] 0 = Except.ok (db1, 0)
  rfl

/-- A one-file location used as the concrete idempotence witness. -/
def fsW1 : FSNode := .dir [("photos", .dir [("a.jpg", .file { content := [1, 2, 3] })])]

/-- The row the witness ingestion creates. -/
def imgW1 : ImageData :=
  { location := ["photos", "a.jpg"], hash := md5_hexdigest [1, 2, 3], format := "jpg" }

theorem C1_ingest_idempotent_witness :
    load_from_directory fsW1 [] { directory := ["photos"] } = .ok ([imgW1], 1) ∧
    (load_from_directory fsW1 [imgW1] { directory := ["photos"] } = .ok ([imgW1], 0) ∧
      ([imgW1].map ImageData.location).Nodup) :=
  ⟨rfl, C1_ingest_idempotent fsW1 [] [imgW1] { directory := ["photos"] } 1 rfl (by simp)⟩

/-- In the session loop, an extraction failure on any candidate file aborts
the whole session with that exception class. -/
theorem loadSession_error_of_bad (fs : FSNode) :
    ∀ (files : List FPath) (db : List ImageData) (added : Nat) (f : FPath)
      (e : ExtractError), f ∈ files → create_image fs f = .error e →
      ∃ e2, loadSession fs db files added = .error (.extract e2) := by
  intro files
  induction files with
  | nil => intro db added f e hf he; cases hf
  | cons a rest ih =>
    intro db added f e hf he
    match hca : create_image fs a with
    | .error e2 => exact ⟨e2, by simp [loadSession, hca]⟩
    | .ok image =>
      rcases List.mem_cons.mp hf with rfl | hf2
      · rw [hca] at he; cases he
      · simp only [loadSession, hca]
        split
        · exact ih db added f e hf2 he
        · exact ih (db ++ [image]) (added + 1) f e hf2 he

/-- C2 (amended): a failure to extract metadata from one candidate file is not
caught by the ingestion run: the exception aborts load_from_directory, and no
file from the batch is committed (the stored table is unchanged on the error
path). -/
theorem C2_bad_file_aborts_batch (fs : FSNode) (db : List ImageData)
    (loc : ImageLocation) (files : List FPath) (f : FPath) (e : ExtractError)
    (hscan : image_files fs loc.directory none db = .ok files)
    (hf : f ∈ files) (he : create_image fs f = .error e) :
    ∃ e2, load_from_directory fs db loc = .error (.extract e2) := by
  unfold load_from_directory
  rw [hscan]
  exact loadSession_error_of_bad fs files db 0 f e hf he

/-- A location with an unreadable first candidate and a good second one. -/
def fsW2 : FSNode := .dir [("pics", .dir
  [("bad.jpg", .file { readable := false }), ("good.jpg", .file {})])]

/-- C2 counterexample: with one unreadable file followed by one good file, the
run does not skip the bad file and commit the rest: the whole batch aborts
with the extraction exception, committing nothing. -/
theorem C2_counterexample :
    load_from_directory fsW2 [] { directory := ["pics"] } =
      .error (.extract (.unreadable ["pics", "bad.jpg"])) := rfl

theorem C2_bad_file_aborts_batch_witness :
    ∃ e2, load_from_directory fsW2 [] { directory := ["pics"] } =
      .error (.extract e2) :=
  C2_bad_file_aborts_batch fsW2 [] { directory := ["pics"] }
    [["pics", "bad.jpg"], ["pics", "good.jpg"]] ["pics", "bad.jpg"]
    (.unreadable ["pics", "bad.jpg"]) rfl (by simp) rfl

/-- C4 (amended): an exception raised inside a scheduled cycle is not caught:
task propagates it, the next cycle is never entered into the queue, and the
scheduler run loop terminates having completed no further cycle. -/
theorem C4_cycle_exception_terminates (w : World) (e : CycleError) (w1 : World)
    (fuel : Nat) (h : task w = .error (e, w1)) :
    start_scheduler (fuel + 1) w = .crashed 0 w1 e := by
  simp [start_scheduler, sched_run, h]

/-- A world whose single registered location does not exist on disk, so the
first cycle raises. -/
def wC4 : World :=
  { fs := .dir [], locations := [{ directory := ["missing"] }], db := [],
    settings := {}, ollamaGen := fun _ _ => .error "unreachable",
    kaggleGen := fun _ => .error "unreachable",
    nefConvert := fun _ => .error "raw" }

/-- C4 counterexample: the first cycle's exception terminates the scheduler
immediately (zero completed cycles, fuel left over), instead of being caught
and followed by the next cycle. -/
theorem C4_counterexample :
    start_scheduler 5 wC4 =
      .crashed 0 wC4 (.load (.scan (.valueError ["missing"]))) := rfl

theorem C4_cycle_exception_terminates_witness :
    start_scheduler 4 wC4 =
      .crashed 0 wC4 (.load (.scan (.valueError ["missing"]))) :=
  C4_cycle_exception_terminates wC4 (.load (.scan (.valueError ["missing"])))
    wC4 3 rfl

/-- C5: evaluating the embedded exifValue at the failing input: a present
rational tag (field_type 5, value Ratio 1/250) returns only the bare
numerator 1 as the plain value, not the numerator divided by the denominator;
in general the rational branch returns v.num, the numerator alone. -/
theorem C5_rational_returns_numerator :
    exifValue [("EXIF ExposureTime",
        { values := .list [.ratio 1 250], field_type := 5 })]
      "EXIF ExposureTime" none = .ok (some (.int 1)) ∧
    (∀ n d : Int, ratioNum (.ratio n d) = .ok (.int n)) :=
  ⟨rfl, fun _ _ => rfl⟩

/-- C7: a root that does not exist makes the scan raise the distinct
ValueError at once, before any file is considered, and the ingestion entry
point surfaces that same validation error to its caller instead of treating
it as a per-file skip. -/
theorem C7_missing_root_fails_fast (fs : FSNode) (root : FPath)
    (existing : Option (List FPath)) (db : List ImageData) (loc : ImageLocation)
    (h : resolve root fs = none) (hl : loc.directory = root) :
    image_files fs root existing db = .error (.valueError root) ∧
    load_from_directory fs db loc = .error (.scan (.valueError root)) := by
  have h0 : ∀ ex2 : Option (List FPath),
      image_files fs root ex2 db = .error (.valueError root) := by
    intro ex2
    unfold image_files
    rw [h]
  refine ⟨h0 existing, ?_⟩
  unfold load_from_directory
  rw [hl, h0 none]

/-- A small tree without the directory nope anywhere. -/
def fsW7 : FSNode := .dir [("present", .dir [])]

theorem C7_missing_root_fails_fast_witness :
    image_files fsW7 ["nope"] none [] = .error (.valueError ["nope"]) ∧
    load_from_directory fsW7 [] { directory := ["nope"] } =
      .error (.scan (.valueError ["nope"])) :=
  C7_missing_root_fails_fast fsW7 ["nope"] none [] { directory := ["nope"] } rfl rfl

/-- C8 (amended): when the caller supplies the exclusion set, the scanner
reads nothing from the catalog: identical filesystem and exclusion set give
identical results whatever the storage contains.  (Without a supplied set it
derives the exclusion set by querying the storage itself; see the
counterexample.) -/
theorem C8_scanner_pure_given_set (fs : FSNode) (root : FPath) (s : List FPath)
    (db1 db2 : List ImageData) :
    image_files fs root (some s) db1 = image_files fs root (some s) db2 := by
  cases hres : resolve root fs with
  | none => simp [image_files, hres]
  | some node => cases node <;> simp [image_files, hres]

def fsW8 : FSNode := .dir [("d", .dir [("a.jpg", .file {})])]

def imgW8 : ImageData := { location := ["d", "a.jpg"], hash := "", format := "jpg" }

/-- C8 counterexample: invoked the way load_from_directory invokes it (no
exclusion set supplied), the scanner queries the catalog itself: the same
filesystem scanned under two different storage states returns different
results. -/
theorem C8_counterexample :
    image_files fsW8 ["d"] none [] = .ok [["d", "a.jpg"]] ∧
    image_files fsW8 ["d"] none [imgW8] = .ok [] := ⟨rfl, rfl⟩

/-- C9: the fingerprint create_image stores is the hexadecimal MD5 digest of
the file's bytes (a deterministic function of the content alone), always
exactly 32 characters long, which exceeds the declared 31-character maximum
length of the hash column. -/
theorem C9_hash_is_32_char_md5 (fs : FSNode) (p : FPath) (img : ImageData)
    (h : create_image fs p = .ok img) :
    (∃ d, resolve p fs = some (.file d) ∧ img.hash = md5_hexdigest d.content) ∧
    img.hash.length = 32 ∧ hashMaxLength < img.hash.length := by
  obtain ⟨d, m, hres, hr, hm, rfl⟩ := create_image_ok h
  refine ⟨⟨d, hres, rfl⟩, md5_hexdigest_length d.content, ?_⟩
  rw [md5_hexdigest_length d.content]
  norm_num [hashMaxLength]

theorem C9_hash_is_32_char_md5_witness :
    (∃ d, resolve ["photos", "a.jpg"] fsW1 = some (.file d) ∧
      imgW1.hash = md5_hexdigest d.content) ∧
    imgW1.hash.length = 32 ∧ hashMaxLength < imgW1.hash.length :=
  C9_hash_is_32_char_md5 fsW1 ["photos", "a.jpg"] imgW1 rfl

mutual

/-- The file paths present in the tree below a directory, level files first,
in the scanner's traversal order. -/
def treeFiles (dir : FPath) (node : FSNode) : List FPath :=
  match node with
  | .file _ => []
  | .dir children =>
    ((children.filter (fun c => c.2.isFile)).map (fun c => dir ++ [c.1]))
      ++ treeFilesChildren dir children

def treeFilesChildren (dir : FPath) (cs : List (String × FSNode)) : List FPath :=
  match cs with
  | [] => []
  | (name, child) :: rest =>
    (if child.isDir then treeFiles (dir ++ [name]) child else [])
      ++ treeFilesChildren dir rest

end

mutual

/-- Every file below the node has a recognized image name and no directory
below it has one: the condition under which the scanner's name filter
coincides with being a file. -/
def recognizedTree : FSNode → Bool
  | .file _ => true
  | .dir children => recognizedChildren children

def recognizedChildren : List (String × FSNode) → Bool
  | [] => true
  | (name, .file _) :: rest => isImageName name && recognizedChildren rest
  | (name, .dir cs) :: rest =>
    !(isImageName name) && recognizedTree (.dir cs) && recognizedChildren rest

end

theorem level_filter_eq (children : List (String × FSNode))
    (h : ∀ c ∈ children, (c.2.isFile = true → isImageName c.1 = true) ∧
         (c.2.isDir = true → isImageName c.1 = false)) :
    (children.map Prod.fst).filter isImageName =
      (children.filter (fun c => c.2.isFile)).map Prod.fst := by
  induction children with
  | nil => rfl
  | cons c rest ih =>
    obtain ⟨name, child⟩ := c
    have hc := h (name, child) (List.mem_cons_self _ _)
    have hrest := fun c hc2 => h c (List.mem_cons_of_mem _ hc2)
    cases child with
    | file d =>
      have : isImageName name = true := hc.1 rfl
      simp [this, ih hrest, FSNode.isFile]
    | dir cs =>
      have : isImageName name = false := hc.2 rfl
      simp [this, ih hrest, FSNode.isFile]

theorem recognizedChildren_facts (cs : List (String × FSNode))
    (h : recognizedChildren cs = true) :
    (∀ c ∈ cs, (c.2.isFile = true → isImageName c.1 = true) ∧
      (c.2.isDir = true → isImageName c.1 = false)) ∧
    (∀ c ∈ cs, recognizedTree c.2 = true) := by
  induction cs with
  | nil => exact ⟨fun c hc => absurd hc (List.not_mem_nil c), fun c hc => absurd hc (List.not_mem_nil c)⟩
  | cons c rest ih =>
    obtain ⟨name, child⟩ := c
    cases child with
    | file d =>
      simp only [recognizedChildren, Bool.and_eq_true] at h
      obtain ⟨h1, h2⟩ := h
      obtain ⟨ih1, ih2⟩ := ih h2
      refine ⟨?_, ?_⟩ <;> intro c hc <;> rcases List.mem_cons.mp hc with rfl | hc2
      · exact ⟨fun _ => h1, fun hd => by simp [FSNode.isDir] at hd⟩
      · exact ih1 c hc2
      · rfl
      · exact ih2 c hc2
    | dir cs2 =>
      simp only [recognizedChildren, Bool.and_eq_true] at h
      obtain ⟨⟨h1, h3⟩, h2⟩ := h
      obtain ⟨ih1, ih2⟩ := ih h2
      refine ⟨?_, ?_⟩ <;> intro c hc <;> rcases List.mem_cons.mp hc with rfl | hc2
      · exact ⟨fun hf => by simp [FSNode.isFile] at hf, fun _ => by simpa using h1⟩
      · exact ih1 c hc2
      · exact h3
      · exact ih2 c hc2

theorem scan_eq_treeFiles (node : FSNode) :
    ∀ dir, recognizedTree node = true → scanDir dir node [] = treeFiles dir node := by
  induction node using FSNode.strongInd with
  | hf d => intro dir _; simp [scanDir, treeFiles]
  | hd children ih =>
    intro dir hrec
    have hfacts := recognizedChildren_facts children (by simpa [recognizedTree] using hrec)
    simp only [scanDir, treeFiles, filter_nil_contains]
    congr 1
    · rw [level_filter_eq children hfacts.1, List.map_map]
      rfl
    · have hch : ∀ cs, (∀ c ∈ cs, c ∈ children) →
          scanChildren dir cs [] = treeFilesChildren dir cs := by
        intro cs
        induction cs with
        | nil => intro _; rfl
        | cons c rest ihc =>
          intro hsub
          obtain ⟨name, child⟩ := c
          simp only [scanChildren, treeFilesChildren]
          congr 1
          · by_cases hdir : child.isDir
            · rw [if_pos hdir, if_pos hdir]
              exact ih (name, child) (hsub _ (List.mem_cons_self _ _)) _
                (hfacts.2 _ (hsub _ (List.mem_cons_self _ _)))
            · rw [if_neg hdir, if_neg hdir]
          · exact ihc (fun c hc => hsub c (List.mem_cons_of_mem _ hc))
      exact hch children (fun c hc => hc)

/-- C6 (amended): for every root directory in which each file at every depth
has a recognized image name (case-insensitively) and no directory is named
like one, scanning with an empty exclusion set returns exactly the files of
the tree; and, unconditionally, every path the scanner returns bears a
recognized image name, so files with unrecognized extensions are never
returned. -/
theorem C6_scan_returns_exactly_files (fs : FSNode) (root : FPath)
    (children : List (String × FSNode)) (db : List ImageData)
    (hres : resolve root fs = some (.dir children))
    (hrec : recognizedTree (.dir children) = true) :
    image_files fs root (some []) db = .ok (treeFiles root (.dir children)) ∧
    (∀ ex p, p ∈ scanDir root (.dir children) ex →
      ∃ q n, p = q ++ [n] ∧ isImageName n = true) := by
  constructor
  · simp only [image_files, hres]
    rw [scan_eq_treeFiles (.dir children) root hrec]
  · intro ex p hp
    obtain ⟨mid, n, rfl, hn⟩ := scanDir_mem_shape (.dir children) root ex p hp
    exact ⟨root ++ mid, n, rfl, hn⟩

/-- A clean two-level tree of recognized image files. -/
def fsW6ok : FSNode := .dir [("p", .dir
  [("a.jpg", .file {}), ("sub", .dir [("b.NeF", .file {})])])]

theorem C6_scan_returns_exactly_files_witness :
    image_files fsW6ok ["p"] (some []) [] =
      .ok (treeFiles ["p"] (.dir [("a.jpg", .file {}),
        ("sub", .dir [("b.NeF", .file {})])])) ∧
    (∀ ex p, p ∈ scanDir ["p"] (.dir [("a.jpg", .file {}),
        ("sub", .dir [("b.NeF", .file {})])]) ex →
      ∃ q n, p = q ++ [n] ∧ isImageName n = true) :=
  C6_scan_returns_exactly_files fsW6ok ["p"]
    [("a.jpg", .file {}), ("sub", .dir [("b.NeF", .file {})])] [] rfl (by decide)

/-- A tree whose only entry is a directory named like an image file. -/
def fsW6 : FSNode := .dir [("d", .dir [("sub.jpg", .dir [])])]

/-- C6 counterexample: a directory named sub.jpg is returned by the scan as if
it were an image file (the listdir filter checks only the name), so a tree
containing no files at all... the scan result is not the set of recognized
files present (which is empty). -/
theorem C6_counterexample :
    image_files fsW6 ["d"] (some []) [] = .ok [["d", "sub.jpg"]] ∧
    treeFiles ["d"] (.dir [("sub.jpg", .dir [])]) = [] := ⟨rfl, rfl⟩

theorem takeWhile_append_block {α : Type} (p : α → Bool) (l1 l2 : List α)
    (h1 : ∀ x ∈ l1, p x = true) (x : α) (hx : p x = false) :
    (l1 ++ x :: l2).takeWhile p = l1 ∧ (l1 ++ x :: l2).dropWhile p = x :: l2 := by
  induction l1 with
  | nil => simp [List.takeWhile_cons, List.dropWhile_cons, hx]
  | cons a rest ih =>
    have ha : p a = true := h1 a (List.mem_cons_self _ _)
    have := ih (fun y hy => h1 y (List.mem_cons_of_mem _ hy))
    simp [List.takeWhile_cons, List.dropWhile_cons, ha, this.1, this.2]

theorem fileFormat_stem_ext (stem ext : String)
    (hstem : ∃ c ∈ stem.data, ¬ c = '.')
    (hext : ∀ c ∈ ext.data, ¬ c = '.') :
    fileFormat (stem ++ "." ++ ext) = ext := by
  have hdata : (stem ++ "." ++ ext).data = stem.data ++ '.' :: ext.data := by
    rw [String.data_append, String.data_append]
    simp
  have hrev : (stem ++ "." ++ ext).data.reverse =
      ext.data.reverse ++ '.' :: stem.data.reverse := by
    rw [hdata, List.reverse_append]
    simp
  have hall : ∀ c ∈ ext.data.reverse, (c != '.') = true := by
    intro c hc
    have := hext c (List.mem_reverse.mp hc)
    simpa using this
  have hdot : (('.' : Char) != '.') = false := by decide
  have htk := takeWhile_append_block (fun c => c != '.') ext.data.reverse
    stem.data.reverse hall '.' hdot
  have hnotall : stem.data.reverse.all (fun c => c == '.') = false := by
    obtain ⟨c, hc, hne⟩ := hstem
    apply Bool.eq_false_iff.mpr
    intro hall2
    have := List.all_eq_true.mp hall2 c (List.mem_reverse.mpr hc)
    simp at this
    exact hne this
  unfold fileFormat extRev
  rw [hrev, htk.1, htk.2]
  simp only [hnotall]
  apply String.ext
  simp

theorem C10_mixed_case_nef (stem ext : String)
    (hstem : ∃ c ∈ stem.data, ¬ c = '.')
    (hext : ∀ c ∈ ext.data, ¬ c = '.')
    (hlow : strLower ext = "nef") :
    isImageName (stem ++ "." ++ ext) = true ∧
    (∀ fs dir img, create_image fs (dir ++ [stem ++ "." ++ ext]) = .ok img →
      img.format = ext) ∧
    (∀ (img : ImageData), img.format = ext →
      ∀ nefC fs, read_image nefC fs img = process_nef nefC fs img) := by
  refine ⟨?_, ?_, ?_⟩
  · have h1 : strEndsWith (strLower (stem ++ "." ++ ext)) ".nef" = true := by
      have : strLower (stem ++ "." ++ ext) = strLower (stem ++ ".") ++ "nef" := by
        rw [strLower_append, hlow]
      rw [this]
      have h2 : strLower (stem ++ ".") ++ "nef" = strLower stem ++ ".nef" := by
        rw [strLower_append]
        apply String.ext
        rw [String.data_append, String.data_append, String.data_append]
        have : (strLower ".").data = ['.'] := by decide
        simp [this]
      rw [h2]
      exact strEndsWith_append (strLower stem) ".nef"
    simp [isImageName, IMAGE_FORMATS, h1]
  · intro fs dir img h
    obtain ⟨d, m, -, -, -, rfl⟩ := create_image_ok h
    show fileFormat (pathBase (dir ++ [stem ++ "." ++ ext])) = ext
    unfold pathBase
    rw [List.getLastD_concat]
    exact fileFormat_stem_ext stem ext hstem hext
  · intro img hfmt nefC fs
    unfold read_image
    rw [hfmt, hlow]
    simp

theorem C10_mixed_case_nef_witness :
    isImageName ("photo" ++ "." ++ "NEF") = true ∧
    (∀ fs dir img, create_image fs (dir ++ ["photo" ++ "." ++ "NEF"]) = .ok img →
      img.format = "NEF") ∧
    (∀ (img : ImageData), img.format = "NEF" →
      ∀ nefC fs, read_image nefC fs img = process_nef nefC fs img) :=
  C10_mixed_case_nef "photo" "NEF" (by decide) (by decide) (by decide)

/-- The closed form of a describing pass in which every pending entry receives
the description d i: pending entries get it, the rest are untouched. -/
def describedWith (d : ImageData → String) (db : List ImageData) : List ImageData :=
  db.map (fun i => if i.description.isNone
    then { i with description := some (d i) } else i)

theorem foldlM_except_ok {α β ε : Type} (step : β → α → Except ε β)
    (g : α → β → β) :
    ∀ (l : List α), (∀ a ∈ l, ∀ b, step b a = .ok (g a b)) →
    ∀ b0, l.foldlM step b0 = .ok (l.foldl (fun b a => g a b) b0) := by
  intro l
  induction l with
  | nil => intro _ b0; rfl
  | cons a rest ih =>
    intro h b0
    have ha := h a (List.mem_cons_self _ _) b0
    simp only [List.foldlM_cons, ha, List.foldl_cons]
    exact ih (fun a2 h2 => h a2 (List.mem_cons_of_mem _ h2)) (g a b0)

theorem foldl_set_image_closed (d : ImageData → String) (imgs : List ImageData) :
    ∀ acc : List ImageData,
      imgs.foldl (fun acc2 img => acc2.map (fun i => if i.location == img.location
        then { img with description := some (d img) } else i)) acc =
      acc.map (fun i => imgs.foldl (fun x img => if x.location == img.location
        then { img with description := some (d img) } else x) i) := by
  induction imgs with
  | nil => intro acc; simp
  | cons a rest ih =>
    intro acc
    simp only [List.foldl_cons]
    rw [ih, List.map_map]
    rfl

/-- Folding the per-entry update of a describing pass over entries whose
locations all differ from x leaves x unchanged. -/
theorem fold_upd_skip (d : ImageData → String) :
    ∀ (imgs : List ImageData) (x : ImageData),
      (∀ img ∈ imgs, img.location ≠ x.location) →
      imgs.foldl (fun y img =>
        if y.location == img.location
        then { img with description := some (d img) } else y) x = x := by
  intro imgs
  induction imgs with
  | nil => intro x _; rfl
  | cons a rest ih =>
    intro x hne
    have ha : a.location ≠ x.location := hne a (List.mem_cons_self _ _)
    simp only [List.foldl_cons]
    have hbeq : (x.location == a.location) = false := by
      simp only [beq_eq_false_iff_ne]
      exact fun h2 => ha h2.symm
    rw [hbeq]
    simp only [Bool.false_eq_true, if_false]
    exact ih x (fun img h2 => hne img (List.mem_cons_of_mem _ h2))

/-- Pointwise action of one describing pass on a table with pairwise distinct
locations: the pending entry at each location gets its description, the others
are untouched. -/
theorem fold_filter_pointwise (d : ImageData → String) (db : List ImageData)
    (hnd : (db.map ImageData.location).Nodup) (i : ImageData) (hi : i ∈ db) :
    (db.filter (fun j => j.description.isNone)).foldl (fun y img =>
        if y.location == img.location
        then { img with description := some (d img) } else y) i =
      (if i.description.isNone then { i with description := some (d i) } else i) := by
  by_cases hp : i.description.isNone = true
  · have hif : i ∈ db.filter (fun j => j.description.isNone) :=
      List.mem_filter.mpr ⟨hi, hp⟩
    obtain ⟨l1, l2, heq⟩ := List.append_of_mem hif
    have hfn : ((db.filter (fun j => j.description.isNone)).map ImageData.location).Nodup :=
      hnd.sublist ((List.filter_sublist db).map _)
    rw [heq] at hfn
    simp only [List.map_append, List.map_cons, List.nodup_append, List.nodup_cons] at hfn
    obtain ⟨hn1, ⟨hnotin2, hn2⟩, hdisj⟩ := hfn
    rw [heq, List.foldl_append]
    have h1 : ∀ img ∈ l1, img.location ≠ i.location := by
      intro img hm hloc
      exact hdisj (List.mem_map_of_mem ImageData.location hm)
        (by simp [hloc])
    rw [fold_upd_skip d l1 i h1]
    simp only [List.foldl_cons, beq_self_eq_true, if_true]
    rw [if_pos hp]
    apply fold_upd_skip
    intro img hm hloc
    exact hnotin2 (by rw [← hloc]; exact List.mem_map_of_mem ImageData.location hm)
  · have hnone : ∀ img ∈ db.filter (fun j => j.description.isNone),
        img.location ≠ i.location := by
      intro img hm hloc
      have : img = i :=
        List.inj_on_of_nodup_map hnd (List.mem_of_mem_filter hm) hi hloc
      subst this
      exact hp (List.mem_filter.mp hm).2
    rw [fold_upd_skip d _ i hnone]
    simp [hp]

/-- C3: when the remote inference backend fails, describe_image returns (and
run_describer stores) the non-null literal error string as the description
instead of raising: the pass completes for every entry, each entry that was
pending now carries the error marker, and a second pass, which selects only
entries with a null description, selects nothing and changes nothing, so the
failed entry is not re-attempted. -/
theorem C3_backend_failure_is_terminal (s : Settings)
    (gen : String → List Nat → Except String String)
    (kag : List Nat → Except String String)
    (nefC : List Nat → Except String (List Nat)) (fs : FSNode)
    (db : List ImageData) (emsg : List Nat → String) (bytes : ImageData → List Nat)
    (hol : s.use_ollama = true)
    (hgen : ∀ m b, gen m b = .error (emsg b))
    (hread : ∀ img ∈ db, img.description = none →
      read_image nefC fs img = .ok (bytes img))
    (hnd : (db.map ImageData.location).Nodup) :
    run_describer s gen kag nefC fs db =
      .ok (describedWith (fun i => "Error describing image: " ++ emsg (bytes i)) db) ∧
    (describedWith (fun i => "Error describing image: " ++ emsg (bytes i)) db).filter
      (fun i => i.description.isNone) = [] ∧
    run_describer s gen kag nefC fs
        (describedWith (fun i => "Error describing image: " ++ emsg (bytes i)) db) =
      .ok (describedWith (fun i => "Error describing image: " ++ emsg (bytes i)) db) := by
  set d : ImageData → String := fun i => "Error describing image: " ++ emsg (bytes i) with hd
  have hstep : ∀ img ∈ db.filter (fun i => i.description.isNone),
      ∀ acc : List ImageData,
      (match describe_image s gen kag nefC fs img with
        | .error e => Except.error (e, acc)
        | .ok de => Except.ok (set_image { img with description := some de } acc))
      = Except.ok (set_image { img with description := some (d img) } acc) := by
    intro img hm acc
    have hmem := List.mem_filter.mp hm
    have hpend : img.description = none := by
      simpa [Option.isNone_iff_eq_none] using hmem.2
    have hdesc : describe_image s gen kag nefC fs img = .ok (d img) := by
      unfold describe_image
      rw [hread img hmem.1 hpend, hol]
      simp [describe_image_ollama, hgen, hd]
    rw [hdesc]
  have hfilter : (describedWith d db).filter (fun i => i.description.isNone) = [] := by
    apply List.filter_eq_nil_iff.mpr
    intro i hi
    unfold describedWith at hi
    obtain ⟨j, hj, rfl⟩ := List.mem_map.mp hi
    by_cases hp : j.description.isNone = true
    · simp [hp]
    · simp [hp]
  have hrun : run_describer s gen kag nefC fs db = .ok (describedWith d db) := by
    unfold run_describer
    rw [foldlM_except_ok
      (fun acc img =>
        match describe_image s gen kag nefC fs img with
        | .error e => Except.error (e, acc)
        | .ok de => Except.ok (set_image { img with description := some de } acc))
      (fun img acc => set_image { img with description := some (d img) } acc)
      (db.filter (fun i => i.description.isNone)) hstep db]
    congr 1
    show (db.filter (fun i => i.description.isNone)).foldl
        (fun acc2 img => acc2.map (fun i => if i.location == img.location
          then { img with description := some (d img) } else i)) db
      = describedWith d db
    rw [foldl_set_image_closed d (db.filter (fun i => i.description.isNone)) db]
    unfold describedWith
    apply List.map_congr_left
    intro i hi
    exact fold_filter_pointwise d db hnd i hi
  refine ⟨hrun, hfilter, ?_⟩
  unfold run_describer
  rw [hfilter]
  rfl

/-- A one-entry catalog whose file exists but whose remote backend always
fails with a transport error. -/
def fsW3 : FSNode := .dir [("p", .dir [("a.jpg", .file { content := [7] })])]

def imgW3 : ImageData := { location := ["p", "a.jpg"], hash := "h", format := "jpg" }

theorem C3_backend_failure_is_terminal_witness :
    run_describer {} (fun _ _ => .error "connection refused")
        (fun _ => .error "k") (fun _ => .error "raw") fsW3 [imgW3] =
      .ok (describedWith (fun _ => "Error describing image: " ++ "connection refused")
        [imgW3]) ∧
    (describedWith (fun _ => "Error describing image: " ++ "connection refused")
        [imgW3]).filter (fun i => i.description.isNone) = [] ∧
    run_describer {} (fun _ _ => .error "connection refused")
        (fun _ => .error "k") (fun _ => .error "raw") fsW3
        (describedWith (fun _ => "Error describing image: " ++ "connection refused")
          [imgW3]) =
      .ok (describedWith (fun _ => "Error describing image: " ++ "connection refused")
        [imgW3]) :=
  C3_backend_failure_is_terminal {} (fun _ _ => .error "connection refused")
    (fun _ => .error "k") (fun _ => .error "raw") fsW3 [imgW3]
    (fun _ => "connection refused") (fun _ => [7]) rfl (fun _ _ => rfl)
    (by
      intro img hm hd
      rw [List.mem_singleton] at hm
      subst hm
      rfl)
    (by simp)
